import Mathlib

/-!
Verification of the fairness-pipeline specification of the
`trustworthy-ai-training-dn22` repository.  The repository's notebook
(`notebooks/02_Fairness.ipynb`) drives a four-stage pipeline — load,
split, fairness-metric evaluation, reweighing — whose computational parts
live in the AIF360 library and are not part of the repository's sources.
The definitions below therefore model those parts from the specification
(sections 3, 4.2, 4.3 and 4.4 of `spec.md`), using exact rational
arithmetic for the numeric values.  Protected-attribute names are
represented by natural-number identifiers.
-/

namespace FairPipe

/-- Modelled from the spec: a row of a tabular dataset (spec section 3), with a
mapping from feature name to numeric value (represented positionally), a binary
label (`true` = favorable outcome), a mapping from protected-attribute
identifier to its binarized value, and a non-negative instance weight
(default 1). -/
structure Row where
  features : List ℚ
  label : Bool
  prot : List (ℕ × ℚ)
  weight : ℚ
deriving DecidableEq

/-- Modelled from the spec: a Dataset is an ordered sequence of rows. -/
abbrev Dataset := List Row

/-- Modelled from the spec: a group predicate is a mapping from
protected-attribute identifier to a required value. -/
abbrev GroupPred := List (ℕ × ℚ)

/-- Modelled from the spec: a row belongs to a group if all its
protected-attribute values match the predicate's required values. -/
def matchB (p : GroupPred) (r : Row) : Bool :=
  p.all (fun nv => r.prot.lookup nv.1 == some nv.2)

/-- The row has the favorable label. -/
def isFav (r : Row) : Bool := r.label

/-- The row has the unfavorable label. -/
def isUnfav (r : Row) : Bool := !r.label

/-- The row is in the group and has the favorable label. -/
def pFav (p : GroupPred) (r : Row) : Bool := matchB p r && r.label

/-- The row is in the group and has the unfavorable label. -/
def pUnfav (p : GroupPred) (r : Row) : Bool := matchB p r && !r.label

/-- Sum of the instance weights of the rows satisfying `q`. -/
def sumW (q : Row → Bool) (d : Dataset) : ℚ :=
  ((d.filter q).map Row.weight).sum

/-- Modelled from the spec: error taxonomy of the fairness-metric evaluator
(spec section 7). -/
inductive MetricError
  | emptyGroup
  | undefinedRatio
deriving DecidableEq

/-- Modelled from the spec: the weighted favorable-outcome rate among the rows
of a group. -/
def favRate (d : Dataset) (p : GroupPred) : ℚ :=
  sumW (pFav p) d / sumW (matchB p) d

/-- Modelled from the spec (section 4.3): the weighted favorable-outcome rate
among unprivileged rows minus the same rate among privileged rows; fails with
`EmptyGroupError` if either group has zero matching rows. -/
def mean_difference (d : Dataset) (unpriv priv : GroupPred) :
    Except MetricError ℚ :=
  if d.countP (matchB unpriv) = 0 ∨ d.countP (matchB priv) = 0 then
    .error .emptyGroup
  else
    .ok (favRate d unpriv - favRate d priv)

/-- Modelled from the spec (section 4.3): the weighted favorable-outcome rate
among unprivileged rows divided by the same rate among privileged rows; fails
with `EmptyGroupError` if either group has zero matching rows and with
`UndefinedRatioError` when the privileged favorable rate is 0. -/
def disparate_impact (d : Dataset) (unpriv priv : GroupPred) :
    Except MetricError ℚ :=
  if d.countP (matchB unpriv) = 0 ∨ d.countP (matchB priv) = 0 then
    .error .emptyGroup
  else if favRate d priv = 0 then
    .error .undefinedRatio
  else
    .ok (favRate d unpriv / favRate d priv)

/-- Modelled from the spec: error of the reweighing transformer
(spec section 7). -/
inductive RWError
  | emptyCell
deriving DecidableEq

/-- The four learned cell weights, in the fixed order of spec section 6:
privileged-favorable, privileged-unfavorable, unprivileged-favorable,
unprivileged-unfavorable. -/
structure RWWeights where
  w_p_fav : ℚ
  w_p_unfav : ℚ
  w_up_fav : ℚ
  w_up_unfav : ℚ
deriving DecidableEq

/-- Modelled from the spec (section 4.4): for each of the four
(group, label) cells,
`weight(group, label) = count(group) * count(label) / (total_count * count(group, label))`. -/
def rwWeights (priv unpriv : GroupPred) (d : Dataset) : RWWeights :=
  { w_p_fav := ((d.countP (matchB priv) : ℚ) * (d.countP isFav : ℚ)) /
      ((d.length : ℚ) * (d.countP (pFav priv) : ℚ))
    w_p_unfav := ((d.countP (matchB priv) : ℚ) * (d.countP isUnfav : ℚ)) /
      ((d.length : ℚ) * (d.countP (pUnfav priv) : ℚ))
    w_up_fav := ((d.countP (matchB unpriv) : ℚ) * (d.countP isFav : ℚ)) /
      ((d.length : ℚ) * (d.countP (pFav unpriv) : ℚ))
    w_up_unfav := ((d.countP (matchB unpriv) : ℚ) * (d.countP isUnfav : ℚ)) /
      ((d.length : ℚ) * (d.countP (pUnfav unpriv) : ℚ)) }

/-- The cell weight applied to a row: a privileged row receives the
privileged-cell weight of its label, an unprivileged row the
unprivileged-cell weight; the spec assumes the two groups partition the
rows, so each row falls in exactly one of the four cells (a row in
neither group, outside the spec's precondition, keeps its weight). -/
def cellW (w : RWWeights) (priv unpriv : GroupPred) (r : Row) : ℚ :=
  if matchB priv r then (if r.label then w.w_p_fav else w.w_p_unfav)
  else if matchB unpriv r then (if r.label then w.w_up_fav else w.w_up_unfav)
  else 1

/-- Multiply a row's existing weight by its cell weight, leaving every other
field unchanged. -/
def applyW (w : RWWeights) (priv unpriv : GroupPred) (r : Row) : Row :=
  { r with weight := r.weight * cellW w priv unpriv r }

/-- Modelled from the spec (section 4.4): the reweighing transformer fails
with `EmptyCellError` if any of the four cells has zero rows, and otherwise
produces a new Dataset in the input's row order in which each row's existing
weight is multiplied by its cell weight. -/
def fit_transform (priv unpriv : GroupPred) (d : Dataset) :
    Except RWError Dataset :=
  if d.countP (pFav priv) = 0 ∨ d.countP (pUnfav priv) = 0 ∨
      d.countP (pFav unpriv) = 0 ∨ d.countP (pUnfav unpriv) = 0 then
    .error .emptyCell
  else
    .ok (d.map (applyW (rwWeights priv unpriv d) priv unpriv))

/-- Modelled from the spec: error of the splitter (spec section 7). -/
inductive SplitError
  | invalidSplit
deriving DecidableEq

/-- The list is strictly increasing. -/
def sortedLT : List ℚ → Bool
  | [] => true
  | [_] => true
  | a :: b :: t => decide (a < b) && sortedLT (b :: t)

/-- Modelled from the spec (section 4.2): cut points are valid when they are
strictly increasing and all lie in the open interval (0, 1). -/
def validCuts (cuts : List ℚ) : Bool :=
  sortedLT cuts && cuts.all (fun c => decide (0 < c) && decide (c < 1))

/-- A linear-congruential step used to derive the pseudo-random sequence of
the deterministic shuffle. -/
def lcg (s : ℕ) : ℕ := (1103515245 * s + 12345) % 4294967296

/-- Selection shuffle: repeatedly pick the element indexed by the current
pseudo-random state and remove it; the fuel argument bounds the recursion by
the list length. -/
def shuffleGo : ℕ → ℕ → List Row → List Row
  | 0, _, l => l
  | _ + 1, _, [] => []
  | f + 1, s, x :: xs =>
    let y := (x :: xs).get ⟨s % (x :: xs).length, Nat.mod_lt _ (Nat.succ_pos _)⟩
    y :: shuffleGo f (lcg s) ((x :: xs).erase y)

/-- Modelled from the spec (section 4.2): shuffling is reproducible from a
deterministic seed; the spec leaves the shuffling algorithm itself
unspecified, so a simple deterministic selection shuffle is used. -/
def shuffleRows (seed : ℕ) (d : Dataset) : Dataset :=
  shuffleGo d.length seed d

/-- Cut the row list into consecutive pieces of the given sizes (any rows
beyond the listed sizes form the final piece), producing one more piece than
there are sizes. -/
def chunkRel : List ℕ → Dataset → List Dataset
  | [], rs => [rs]
  | k :: ks, rs => rs.take k :: chunkRel ks (rs.drop k)

/-- Convert ascending absolute cut indices into consecutive piece sizes. -/
def relSizes : ℕ → List ℕ → List ℕ
  | _, [] => []
  | prev, i :: is => (i - prev) :: relSizes i is

/-- Modelled from the spec (section 4.2): given an ordered sequence of cut
points in (0, 1), a shuffle flag and a deterministic seed, partition the
(optionally shuffled) rows into N+1 datasets at the indices obtained by
scaling each cut point by the row count; fails with `InvalidSplitError` if
the cut points are not strictly increasing or not within (0, 1). -/
def split (d : Dataset) (cuts : List ℚ) (shuffle : Bool) (seed : ℕ) :
    Except SplitError (List Dataset) :=
  if validCuts cuts then
    .ok (chunkRel (relSizes 0 (cuts.map (fun c => ⌊c * (d.length : ℚ)⌋₊)))
      (if shuffle then shuffleRows seed d else d))
  else
    .error .invalidSplit

/-- The privileged and unprivileged group predicates partition the dataset:
every row matches exactly one of the two (the spec's caller-responsibility
precondition for the metrics to be well defined). -/
def Partitioned (priv unpriv : GroupPred) (d : Dataset) : Prop :=
  ∀ r ∈ d, matchB priv r = !matchB unpriv r

/-- The notebook's privileged group predicate: protected attribute 0
(age) has value 1. -/
def privP : GroupPred := [(0, 1)]

/-- The notebook's unprivileged group predicate: protected attribute 0
(age) has value 0. -/
def unprivP : GroupPred := [(0, 0)]

/-- A sample row with the given features, group membership, label and
weight. -/
def mkRow (fs : List ℚ) (g : Bool) (fav : Bool) (w : ℚ) : Row :=
  { features := fs, label := fav, prot := [(0, if g then 1 else 0)], weight := w }

/-- A five-row sample dataset with unit weights and all four cells
non-empty. -/
def d5 : Dataset :=
  [mkRow [1] true true 1, mkRow [2] true true 1, mkRow [3] true false 1,
   mkRow [4] false true 1, mkRow [5] false false 1]

/-- The dataset `d5` after reweighing: same rows in the same order, with each
weight multiplied by its cell weight. -/
def d5t : Dataset :=
  [mkRow [1] true true (9/10), mkRow [2] true true (9/10),
   mkRow [3] true false (6/5), mkRow [4] false true (6/5),
   mkRow [5] false false (4/5)]

/-- A privileged favorable sample row with unit weight. -/
def rowPF : Row := mkRow [] true true 1

/-- A privileged unfavorable sample row with unit weight. -/
def rowPU : Row := mkRow [] true false 1

/-- An unprivileged favorable sample row with unit weight. -/
def rowUF : Row := mkRow [] false true 1

/-- An unprivileged unfavorable sample row with unit weight. -/
def rowUU : Row := mkRow [] false false 1

/-- The spec's 700-row scenario dataset: cell counts
(priv, fav) = 400, (priv, unfav) = 100, (unpriv, fav) = 120,
(unpriv, unfav) = 80, all weights 1. -/
def d700 : Dataset :=
  List.replicate 400 rowPF ++
    (List.replicate 100 rowPU ++
      (List.replicate 120 rowUF ++ List.replicate 80 rowUU))

instance (priv unpriv : GroupPred) (d : Dataset) :
    Decidable (Partitioned priv unpriv d) :=
  decidable_of_iff (∀ r ∈ d, matchB priv r = !matchB unpriv r) Iff.rfl

instance {ε α : Type} [DecidableEq ε] [DecidableEq α] :
    DecidableEq (Except ε α) := fun a b =>
  match a, b with
  | .ok x, .ok y => decidable_of_iff (x = y) (by simp)
  | .error e, .error f => decidable_of_iff (e = f) (by simp)
  | .ok _, .error _ => isFalse (by simp)
  | .error _, .ok _ => isFalse (by simp)

/-- Splitting a count over a second predicate. -/
theorem countP_split (d : Dataset) (q f : Row → Bool) :
    d.countP q =
      d.countP (fun r => q r && f r) + d.countP (fun r => q r && !f r) := by
  induction d with
  | nil => rfl
  | cons a t ih =>
    simp only [List.countP_cons, ih]
    cases hq : q a <;> cases hf : f a <;> simp [hq, hf] <;> omega

/-- A group's row count is the sum of its two cell counts. -/
theorem countP_group_cells (p : GroupPred) (d : Dataset) :
    d.countP (matchB p) = d.countP (pFav p) + d.countP (pUnfav p) := by
  simpa [pFav, pUnfav] using countP_split d (matchB p) (fun r => r.label)

/-- The favorable and unfavorable row counts sum to the dataset size. -/
theorem countP_label_total (d : Dataset) :
    d.countP isFav + d.countP isUnfav = d.length := by
  induction d with
  | nil => rfl
  | cons a t ih =>
    simp only [List.countP_cons, List.length_cons]
    cases h : a.label <;> simp [isFav, isUnfav, h] <;> omega

/-- Under the partition precondition, the favorable row count is the sum of
the two groups' favorable cell counts. -/
theorem countP_fav_groups (priv unpriv : GroupPred) (d : Dataset)
    (hp : Partitioned priv unpriv d) :
    d.countP isFav = d.countP (pFav priv) + d.countP (pFav unpriv) := by
  induction d with
  | nil => rfl
  | cons a t ih =>
    have ha := hp a (by simp)
    have hu : matchB unpriv a = !matchB priv a := by rw [ha, Bool.not_not]
    have ht : Partitioned priv unpriv t := fun r hr => hp r (by simp [hr])
    simp only [List.countP_cons, ih ht]
    cases hl : a.label <;> cases hm : matchB priv a <;>
      simp [pFav, isFav, hl, hm, hu] <;> omega

/-- Under the partition precondition, the unfavorable row count is the sum of
the two groups' unfavorable cell counts. -/
theorem countP_unfav_groups (priv unpriv : GroupPred) (d : Dataset)
    (hp : Partitioned priv unpriv d) :
    d.countP isUnfav = d.countP (pUnfav priv) + d.countP (pUnfav unpriv) := by
  induction d with
  | nil => rfl
  | cons a t ih =>
    have ha := hp a (by simp)
    have hu : matchB unpriv a = !matchB priv a := by rw [ha, Bool.not_not]
    have ht : Partitioned priv unpriv t := fun r hr => hp r (by simp [hr])
    simp only [List.countP_cons, ih ht]
    cases hl : a.label <;> cases hm : matchB priv a <;>
      simp [pUnfav, isUnfav, hl, hm, hu] <;> omega

/-- Under the partition precondition, the two groups' row counts sum to the
dataset size. -/
theorem countP_groups_total (priv unpriv : GroupPred) (d : Dataset)
    (hp : Partitioned priv unpriv d) :
    d.countP (matchB priv) + d.countP (matchB unpriv) = d.length := by
  induction d with
  | nil => rfl
  | cons a t ih =>
    have ha := hp a (by simp)
    have hu : matchB unpriv a = !matchB priv a := by rw [ha, Bool.not_not]
    have ht : Partitioned priv unpriv t := fun r hr => hp r (by simp [hr])
    have ihh := ih ht
    simp only [List.countP_cons, List.length_cons]
    cases hm : matchB priv a <;> simp [hm, hu] <;> omega

/-- Unfolding `sumW` over a cons cell. -/
theorem sumW_cons (q : Row → Bool) (a : Row) (t : Dataset) :
    sumW q (a :: t) = (if q a then a.weight else 0) + sumW q t := by
  simp only [sumW, List.filter_cons]
  cases q a <;> simp

/-- With unit weights, a weighted sum is the corresponding row count. -/
theorem sumW_unit (q : Row → Bool) (d : Dataset) (h : ∀ r ∈ d, r.weight = 1) :
    sumW q d = (d.countP q : ℚ) := by
  induction d with
  | nil => rfl
  | cons a t ih =>
    have ha := h a (by simp)
    have ht : ∀ r ∈ t, r.weight = 1 := fun r hr => h r (by simp [hr])
    rw [sumW_cons, ih ht, List.countP_cons]
    cases hq : q a
    · simp [hq]
    · simp [hq, ha]
      ring

/-- Splitting a weighted sum over a second predicate. -/
theorem sumW_split (q f : Row → Bool) (d : Dataset) :
    sumW q d =
      sumW (fun r => q r && f r) d + sumW (fun r => q r && !f r) d := by
  induction d with
  | nil => simp [sumW]
  | cons a t ih =>
    rw [sumW_cons, sumW_cons, sumW_cons, ih]
    cases hq : q a <;> cases hf : f a <;> simp [hq, hf] <;> ring

/-- A group's weighted total is the sum of its two cells' weighted totals. -/
theorem sumW_group_cells (p : GroupPred) (d : Dataset) :
    sumW (matchB p) d = sumW (pFav p) d + sumW (pUnfav p) d := by
  simpa [pFav, pUnfav] using sumW_split (matchB p) (fun r => r.label) d

/-- Under the partition precondition, the favorable weighted total is the sum
of the two groups' favorable cells' weighted totals. -/
theorem sumW_fav_groups (priv unpriv : GroupPred) (d : Dataset)
    (hp : Partitioned priv unpriv d) :
    sumW isFav d = sumW (pFav priv) d + sumW (pFav unpriv) d := by
  induction d with
  | nil => simp [sumW]
  | cons a t ih =>
    have ha := hp a (by simp)
    have hu : matchB unpriv a = !matchB priv a := by rw [ha, Bool.not_not]
    have ht : Partitioned priv unpriv t := fun r hr => hp r (by simp [hr])
    rw [sumW_cons, sumW_cons, sumW_cons, ih ht]
    cases hl : a.label <;> cases hm : matchB priv a <;>
      simp [pFav, isFav, hl, hm, hu] <;> ring

/-- Under the partition precondition, the unfavorable weighted total is the
sum of the two groups' unfavorable cells' weighted totals. -/
theorem sumW_unfav_groups (priv unpriv : GroupPred) (d : Dataset)
    (hp : Partitioned priv unpriv d) :
    sumW isUnfav d = sumW (pUnfav priv) d + sumW (pUnfav unpriv) d := by
  induction d with
  | nil => simp [sumW]
  | cons a t ih =>
    have ha := hp a (by simp)
    have hu : matchB unpriv a = !matchB priv a := by rw [ha, Bool.not_not]
    have ht : Partitioned priv unpriv t := fun r hr => hp r (by simp [hr])
    rw [sumW_cons, sumW_cons, sumW_cons, ih ht]
    cases hl : a.label <;> cases hm : matchB priv a <;>
      simp [pUnfav, isUnfav, hl, hm, hu] <;> ring

/-- Reweighing changes no field relevant to group membership or label. -/
theorem matchB_applyW (w : RWWeights) (priv unpriv p : GroupPred) (r : Row) :
    matchB p (applyW w priv unpriv r) = matchB p r := rfl

/-- Reweighing preserves the label. -/
theorem label_applyW (w : RWWeights) (priv unpriv : GroupPred) (r : Row) :
    (applyW w priv unpriv r).label = r.label := rfl

/-- Reweighing preserves cell membership. -/
theorem pFav_applyW (w : RWWeights) (priv unpriv p : GroupPred) (r : Row) :
    pFav p (applyW w priv unpriv r) = pFav p r := rfl

/-- Reweighing preserves cell membership. -/
theorem pUnfav_applyW (w : RWWeights) (priv unpriv p : GroupPred) (r : Row) :
    pUnfav p (applyW w priv unpriv r) = pUnfav p r := rfl

/-- Counts of label/group predicates are unchanged by reweighing. -/
theorem countP_map_applyW (w : RWWeights) (priv unpriv : GroupPred)
    (q : Row → Bool) (d : Dataset)
    (hq : ∀ r, q (applyW w priv unpriv r) = q r) :
    (d.map (applyW w priv unpriv)).countP q = d.countP q := by
  rw [List.countP_map]
  exact List.countP_congr (fun r _ => by simp [Function.comp_apply, hq r])

/-- The weighted total of a set of rows all carrying the same cell weight is
scaled by exactly that cell weight. -/
theorem sumW_map_applyW (w : RWWeights) (priv unpriv : GroupPred)
    (q : Row → Bool) (c : ℚ) (d : Dataset)
    (hq : ∀ r, q (applyW w priv unpriv r) = q r)
    (hc : ∀ r ∈ d, q r = true → cellW w priv unpriv r = c) :
    sumW q (d.map (applyW w priv unpriv)) = c * sumW q d := by
  induction d with
  | nil => simp [sumW]
  | cons a t ih =>
    have ht : ∀ r ∈ t, q r = true → cellW w priv unpriv r = c :=
      fun r hr => hc r (by simp [hr])
    rw [List.map_cons, sumW_cons, sumW_cons, ih ht, hq a]
    cases hqa : q a
    · simp
    · have hca := hc a (by simp) hqa
      simp [applyW, hca]
      ring

/-- Rows of the privileged favorable cell receive the privileged favorable
weight. -/
theorem cellW_pFav (w : RWWeights) (priv unpriv : GroupPred) (r : Row)
    (h : pFav priv r = true) : cellW w priv unpriv r = w.w_p_fav := by
  rw [pFav, Bool.and_eq_true] at h
  simp [cellW, h.1, h.2]

/-- Rows of the privileged unfavorable cell receive the privileged
unfavorable weight. -/
theorem cellW_pUnfav (w : RWWeights) (priv unpriv : GroupPred) (r : Row)
    (h : pUnfav priv r = true) : cellW w priv unpriv r = w.w_p_unfav := by
  rw [pUnfav, Bool.and_eq_true] at h
  have hl : r.label = false := by simpa using h.2
  simp [cellW, h.1, hl]

/-- Rows of the unprivileged favorable cell receive the unprivileged
favorable weight. -/
theorem cellW_uFav (w : RWWeights) (priv unpriv : GroupPred) (r : Row)
    (hnp : matchB priv r = false)
    (h : pFav unpriv r = true) : cellW w priv unpriv r = w.w_up_fav := by
  rw [pFav, Bool.and_eq_true] at h
  simp [cellW, hnp, h.1, h.2]

/-- Rows of the unprivileged unfavorable cell receive the unprivileged
unfavorable weight. -/
theorem cellW_uUnfav (w : RWWeights) (priv unpriv : GroupPred) (r : Row)
    (hnp : matchB priv r = false)
    (h : pUnfav unpriv r = true) : cellW w priv unpriv r = w.w_up_unfav := by
  rw [pUnfav, Bool.and_eq_true] at h
  have hl : r.label = false := by simpa using h.2
  simp [cellW, hnp, h.1, hl]

/-- When no cell is empty the transformer succeeds, returning the mapped
dataset. -/
theorem fit_transform_ok (priv unpriv : GroupPred) (d : Dataset)
    (hPf : d.countP (pFav priv) ≠ 0) (hPu : d.countP (pUnfav priv) ≠ 0)
    (hUf : d.countP (pFav unpriv) ≠ 0) (hUu : d.countP (pUnfav unpriv) ≠ 0) :
    fit_transform priv unpriv d =
      .ok (d.map (applyW (rwWeights priv unpriv d) priv unpriv)) := by
  unfold fit_transform
  rw [if_neg]
  push_neg
  exact ⟨hPf, hPu, hUf, hUu⟩

/-- Under the partition precondition over rows that all have the same
membership after mapping, the partition precondition survives reweighing. -/
theorem Partitioned_map_applyW (w : RWWeights) (priv unpriv : GroupPred)
    (d : Dataset) (hp : Partitioned priv unpriv d) :
    Partitioned priv unpriv (d.map (applyW w priv unpriv)) := by
  intro r' hr'
  obtain ⟨r, hr, rfl⟩ := List.mem_map.mp hr'
  exact hp r hr

/-- The weighted total of each of the four cells after reweighing equals the
product of its group marginal and label marginal divided by the total row
count. -/
theorem transf_cell_sums (priv unpriv : GroupPred) (d : Dataset)
    (hp : Partitioned priv unpriv d)
    (hw : ∀ r ∈ d, r.weight = 1)
    (hPf : d.countP (pFav priv) ≠ 0) (hPu : d.countP (pUnfav priv) ≠ 0)
    (hUf : d.countP (pFav unpriv) ≠ 0) (hUu : d.countP (pUnfav unpriv) ≠ 0) :
    sumW (pFav priv) (d.map (applyW (rwWeights priv unpriv d) priv unpriv)) =
        (d.countP (matchB priv) : ℚ) * (d.countP isFav : ℚ) / (d.length : ℚ) ∧
    sumW (pUnfav priv) (d.map (applyW (rwWeights priv unpriv d) priv unpriv)) =
        (d.countP (matchB priv) : ℚ) * (d.countP isUnfav : ℚ) / (d.length : ℚ) ∧
    sumW (pFav unpriv) (d.map (applyW (rwWeights priv unpriv d) priv unpriv)) =
        (d.countP (matchB unpriv) : ℚ) * (d.countP isFav : ℚ) / (d.length : ℚ) ∧
    sumW (pUnfav unpriv) (d.map (applyW (rwWeights priv unpriv d) priv unpriv)) =
        (d.countP (matchB unpriv) : ℚ) * (d.countP isUnfav : ℚ) / (d.length : ℚ) := by
  have hn : d.length ≠ 0 := by
    have h1 : d.countP (pFav priv) ≤ d.length := List.countP_le_length _
    omega
  have hnQ : (d.length : ℚ) ≠ 0 := Nat.cast_ne_zero.mpr hn
  have hPfQ : (d.countP (pFav priv) : ℚ) ≠ 0 := Nat.cast_ne_zero.mpr hPf
  have hPuQ : (d.countP (pUnfav priv) : ℚ) ≠ 0 := Nat.cast_ne_zero.mpr hPu
  have hUfQ : (d.countP (pFav unpriv) : ℚ) ≠ 0 := Nat.cast_ne_zero.mpr hUf
  have hUuQ : (d.countP (pUnfav unpriv) : ℚ) ≠ 0 := Nat.cast_ne_zero.mpr hUu
  refine ⟨?_, ?_, ?_, ?_⟩
  · rw [sumW_map_applyW _ _ _ _ (rwWeights priv unpriv d).w_p_fav _
        (fun r => pFav_applyW _ _ _ _ r) (fun r _ h => cellW_pFav _ _ _ _ h),
      sumW_unit _ _ hw]
    show (d.countP (matchB priv) : ℚ) * (d.countP isFav : ℚ) /
        ((d.length : ℚ) * (d.countP (pFav priv) : ℚ)) *
        (d.countP (pFav priv) : ℚ) = _
    field_simp
    ring
  · rw [sumW_map_applyW _ _ _ _ (rwWeights priv unpriv d).w_p_unfav _
        (fun r => pUnfav_applyW _ _ _ _ r) (fun r _ h => cellW_pUnfav _ _ _ _ h),
      sumW_unit _ _ hw]
    show (d.countP (matchB priv) : ℚ) * (d.countP isUnfav : ℚ) /
        ((d.length : ℚ) * (d.countP (pUnfav priv) : ℚ)) *
        (d.countP (pUnfav priv) : ℚ) = _
    field_simp
    ring
  · rw [sumW_map_applyW _ _ _ _ (rwWeights priv unpriv d).w_up_fav _
        (fun r => pFav_applyW _ _ _ _ r)
        (fun r hr h => by
          have hm : matchB unpriv r = true := by
            rw [pFav, Bool.and_eq_true] at h
            exact h.1
          have hnp : matchB priv r = false := by rw [hp r hr, hm]; rfl
          exact cellW_uFav _ _ _ _ hnp h),
      sumW_unit _ _ hw]
    show (d.countP (matchB unpriv) : ℚ) * (d.countP isFav : ℚ) /
        ((d.length : ℚ) * (d.countP (pFav unpriv) : ℚ)) *
        (d.countP (pFav unpriv) : ℚ) = _
    field_simp
    ring
  · rw [sumW_map_applyW _ _ _ _ (rwWeights priv unpriv d).w_up_unfav _
        (fun r => pUnfav_applyW _ _ _ _ r)
        (fun r hr h => by
          have hm : matchB unpriv r = true := by
            rw [pUnfav, Bool.and_eq_true] at h
            exact h.1
          have hnp : matchB priv r = false := by rw [hp r hr, hm]; rfl
          exact cellW_uUnfav _ _ _ _ hnp h),
      sumW_unit _ _ hw]
    show (d.countP (matchB unpriv) : ℚ) * (d.countP isUnfav : ℚ) /
        ((d.length : ℚ) * (d.countP (pUnfav unpriv) : ℚ)) *
        (d.countP (pUnfav unpriv) : ℚ) = _
    field_simp
    ring

/-- Algebraic core of the fairness guarantee: the reweighed in-group rate
collapses to the overall favorable share. -/
theorem rate_div_helper (n P F G : ℚ) (hn : n ≠ 0) (hP : P ≠ 0)
    (hFG : F + G = n) :
    (P * F / n) / (P * F / n + P * G / n) = F / n := by
  have hden : P * F / n + P * G / n = P := by
    field_simp
    linear_combination P * hFG
  rw [hden, div_div]
  rw [mul_comm n P, ← div_div, mul_div_assoc, mul_comm]
  field_simp

/-- After reweighing, each group's weighted favorable-outcome rate equals the
overall favorable share of the input dataset. -/
theorem transf_favRates (priv unpriv : GroupPred) (d : Dataset)
    (hp : Partitioned priv unpriv d)
    (hw : ∀ r ∈ d, r.weight = 1)
    (hPf : d.countP (pFav priv) ≠ 0) (hPu : d.countP (pUnfav priv) ≠ 0)
    (hUf : d.countP (pFav unpriv) ≠ 0) (hUu : d.countP (pUnfav unpriv) ≠ 0) :
    favRate (d.map (applyW (rwWeights priv unpriv d) priv unpriv)) priv =
        (d.countP isFav : ℚ) / (d.length : ℚ) ∧
    favRate (d.map (applyW (rwWeights priv unpriv d) priv unpriv)) unpriv =
        (d.countP isFav : ℚ) / (d.length : ℚ) := by
  obtain ⟨s1, s2, s3, s4⟩ := transf_cell_sums priv unpriv d hp hw hPf hPu hUf hUu
  have hn : d.length ≠ 0 := by
    have h1 : d.countP (pFav priv) ≤ d.length := List.countP_le_length _
    omega
  have hnQ : (d.length : ℚ) ≠ 0 := Nat.cast_ne_zero.mpr hn
  have hFG : (d.countP isFav : ℚ) + (d.countP isUnfav : ℚ) = (d.length : ℚ) := by
    exact_mod_cast countP_label_total d
  have hPn : d.countP (matchB priv) ≠ 0 := by
    rw [countP_group_cells]
    omega
  have hUn : d.countP (matchB unpriv) ≠ 0 := by
    rw [countP_group_cells]
    omega
  have hPQ : (d.countP (matchB priv) : ℚ) ≠ 0 := Nat.cast_ne_zero.mpr hPn
  have hUQ : (d.countP (matchB unpriv) : ℚ) ≠ 0 := Nat.cast_ne_zero.mpr hUn
  constructor
  · rw [favRate, sumW_group_cells, s1, s2]
    exact rate_div_helper _ _ _ _ hnQ hPQ hFG
  · rw [favRate, sumW_group_cells, s3, s4]
    exact rate_div_helper _ _ _ _ hnQ hUQ hFG

/-- The selection shuffle permutes its input. -/
theorem shuffleGo_perm (f : ℕ) :
    ∀ (s : ℕ) (l : List Row), (shuffleGo f s l).Perm l := by
  induction f with
  | zero => exact fun s l => List.Perm.refl _
  | succ f ih =>
    intro s l
    cases l with
    | nil => exact List.Perm.refl _
    | cons x xs =>
      rw [shuffleGo]
      refine List.Perm.trans (List.Perm.cons _ (ih _ _)) ?_
      exact (List.perm_cons_erase (List.get_mem _ _ _)).symm

/-- The shuffle of the splitter permutes the dataset's rows. -/
theorem shuffleRows_perm (seed : ℕ) (d : Dataset) :
    (shuffleRows seed d).Perm d :=
  shuffleGo_perm d.length seed d

/-- Concatenating the pieces produced by `chunkRel` recovers the rows. -/
theorem chunkRel_flatten (ks : List ℕ) (rs : Dataset) :
    (chunkRel ks rs).flatten = rs := by
  induction ks generalizing rs with
  | nil => simp [chunkRel]
  | cons k ks ih => simp [chunkRel, ih]

/-- `chunkRel` produces one more piece than there are sizes. -/
theorem chunkRel_length (ks : List ℕ) (rs : Dataset) :
    (chunkRel ks rs).length = ks.length + 1 := by
  induction ks generalizing rs with
  | nil => rfl
  | cons k ks ih => simp [chunkRel, ih]

/-- Converting absolute indices to piece sizes preserves the count. -/
theorem relSizes_length (p : ℕ) (is : List ℕ) :
    (relSizes p is).length = is.length := by
  induction is generalizing p with
  | nil => rfl
  | cons i is ih => simp [relSizes, ih]

/-- The Boolean strict-sortedness check agrees with `List.Chain'`. -/
theorem sortedLT_iff (l : List ℚ) :
    sortedLT l = true ↔ l.Chain' (· < ·) := by
  induction l with
  | nil => simp [sortedLT]
  | cons a t ih =>
    cases t with
    | nil => simp [sortedLT]
    | cons b u =>
      rw [sortedLT, Bool.and_eq_true, decide_eq_true_eq, List.chain'_cons]
      exact and_congr_right (fun _ => ih)

/-- The Boolean cut-point validation agrees with the spec's two conditions:
strictly increasing, and inside the open unit interval. -/
theorem validCuts_iff (cuts : List ℚ) :
    validCuts cuts = true ↔
      (cuts.Chain' (· < ·) ∧ ∀ c ∈ cuts, 0 < c ∧ c < 1) := by
  rw [validCuts, Bool.and_eq_true, sortedLT_iff, List.all_eq_true]
  refine and_congr_right (fun _ => ?_)
  constructor
  · intro h c hc
    have := h c hc
    rw [Bool.and_eq_true, decide_eq_true_eq, decide_eq_true_eq] at this
    exact this
  · intro h c hc
    rw [Bool.and_eq_true, decide_eq_true_eq, decide_eq_true_eq]
    exact h c hc

/-- The fields of a row other than its weight. -/
def rowCore (r : Row) : List ℚ × Bool × List (ℕ × ℚ) :=
  (r.features, r.label, r.prot)

/-- A second five-row dataset with the same four cell counts as `d5` but
different feature values and a different row order. -/
def d5b : Dataset :=
  [mkRow [9] false true 1, mkRow [8] true false 1, mkRow [7] true true 1,
   mkRow [6] false false 1, mkRow [5] true true 1]

/-- C1: for every dataset whose four (group, label) cells are all non-empty,
whose initial instance weights are uniformly 1 and whose privileged and
unprivileged predicates partition the rows (the spec's caller-responsibility
precondition), applying the reweighing transformer succeeds and recomputing
the fairness metrics on its output yields `mean_difference` exactly 0 and
`disparate_impact` exactly 1 — exact rational equalities, hence in particular
within the claimed 1e-9 tolerance. -/
theorem C1_reweigh_makes_metrics_fair (priv unpriv : GroupPred) (d : Dataset)
    (hp : Partitioned priv unpriv d) (hw : ∀ r ∈ d, r.weight = 1)
    (hPf : d.countP (pFav priv) ≠ 0) (hPu : d.countP (pUnfav priv) ≠ 0)
    (hUf : d.countP (pFav unpriv) ≠ 0) (hUu : d.countP (pUnfav unpriv) ≠ 0) :
    ∃ d', fit_transform priv unpriv d = .ok d' ∧
      mean_difference d' unpriv priv = .ok 0 ∧
      disparate_impact d' unpriv priv = .ok 1 := by
  obtain ⟨r1, r2⟩ := transf_favRates priv unpriv d hp hw hPf hPu hUf hUu
  have hn : d.length ≠ 0 := by
    have h1 : d.countP (pFav priv) ≤ d.length := List.countP_le_length _
    omega
  have hnQ : (d.length : ℚ) ≠ 0 := Nat.cast_ne_zero.mpr hn
  have hF : d.countP isFav ≠ 0 := by
    rw [countP_fav_groups priv unpriv d hp]
    omega
  have hFQ : (d.countP isFav : ℚ) ≠ 0 := Nat.cast_ne_zero.mpr hF
  have hPn : d.countP (matchB priv) ≠ 0 := by
    rw [countP_group_cells]
    omega
  have hUn : d.countP (matchB unpriv) ≠ 0 := by
    rw [countP_group_cells]
    omega
  have hP' :
      (d.map (applyW (rwWeights priv unpriv d) priv unpriv)).countP
        (matchB priv) ≠ 0 := by
    rw [countP_map_applyW _ _ _ _ _ (fun r => matchB_applyW _ _ _ _ r)]
    exact hPn
  have hU' :
      (d.map (applyW (rwWeights priv unpriv d) priv unpriv)).countP
        (matchB unpriv) ≠ 0 := by
    rw [countP_map_applyW _ _ _ _ _ (fun r => matchB_applyW _ _ _ _ r)]
    exact hUn
  refine ⟨_, fit_transform_ok priv unpriv d hPf hPu hUf hUu, ?_, ?_⟩
  · unfold mean_difference
    rw [if_neg (by push_neg; exact ⟨hU', hP'⟩), r1, r2, sub_self]
  · unfold disparate_impact
    rw [if_neg (by push_neg; exact ⟨hU', hP'⟩), r1, r2,
      if_neg (div_ne_zero hFQ hnQ), div_self (div_ne_zero hFQ hnQ)]

/-- C1 witness: the hypotheses of `C1_reweigh_makes_metrics_fair` hold for
the concrete five-row dataset `d5` with the notebook's group predicates. -/
theorem C1_reweigh_makes_metrics_fair_w :
    (Partitioned privP unprivP d5 ∧ (∀ r ∈ d5, r.weight = 1) ∧
      d5.countP (pFav privP) ≠ 0 ∧ d5.countP (pUnfav privP) ≠ 0 ∧
      d5.countP (pFav unprivP) ≠ 0 ∧ d5.countP (pUnfav unprivP) ≠ 0) ∧
    (∃ d', fit_transform privP unprivP d5 = .ok d' ∧
      mean_difference d' unprivP privP = .ok 0 ∧
      disparate_impact d' unprivP privP = .ok 1) :=
  ⟨⟨by decide, by decide, by decide, by decide, by decide, by decide⟩,
    C1_reweigh_makes_metrics_fair privP unprivP d5 (by decide) (by decide)
      (by decide) (by decide) (by decide) (by decide)⟩

/-- C3: for every dataset whose four cells are all non-empty, whose weights
are uniformly 1 and whose group predicates partition the rows, reweighing
preserves the weighted row-count marginal of each group and of each label. -/
theorem C3_reweigh_preserves_marginals (priv unpriv : GroupPred) (d : Dataset)
    (hp : Partitioned priv unpriv d) (hw : ∀ r ∈ d, r.weight = 1)
    (hPf : d.countP (pFav priv) ≠ 0) (hPu : d.countP (pUnfav priv) ≠ 0)
    (hUf : d.countP (pFav unpriv) ≠ 0) (hUu : d.countP (pUnfav unpriv) ≠ 0) :
    ∃ d', fit_transform priv unpriv d = .ok d' ∧
      sumW (matchB priv) d' = sumW (matchB priv) d ∧
      sumW (matchB unpriv) d' = sumW (matchB unpriv) d ∧
      sumW isFav d' = sumW isFav d ∧
      sumW isUnfav d' = sumW isUnfav d := by
  obtain ⟨s1, s2, s3, s4⟩ := transf_cell_sums priv unpriv d hp hw hPf hPu hUf hUu
  have hp' := Partitioned_map_applyW (rwWeights priv unpriv d) priv unpriv d hp
  have hn : d.length ≠ 0 := by
    have h1 : d.countP (pFav priv) ≤ d.length := List.countP_le_length _
    omega
  have hnQ : (d.length : ℚ) ≠ 0 := Nat.cast_ne_zero.mpr hn
  have hFG : (d.countP isFav : ℚ) + (d.countP isUnfav : ℚ) = (d.length : ℚ) := by
    exact_mod_cast countP_label_total d
  have hPU : (d.countP (matchB priv) : ℚ) + (d.countP (matchB unpriv) : ℚ) =
      (d.length : ℚ) := by
    exact_mod_cast countP_groups_total priv unpriv d hp
  refine ⟨_, fit_transform_ok priv unpriv d hPf hPu hUf hUu, ?_, ?_, ?_, ?_⟩
  · rw [sumW_group_cells, s1, s2, sumW_unit _ _ hw]
    field_simp
    linear_combination (d.countP (matchB priv) : ℚ) * hFG
  · rw [sumW_group_cells, s3, s4, sumW_unit _ _ hw]
    field_simp
    linear_combination (d.countP (matchB unpriv) : ℚ) * hFG
  · rw [sumW_fav_groups priv unpriv _ hp', s1, s3, sumW_unit _ _ hw]
    field_simp
    linear_combination (d.countP isFav : ℚ) * hPU
  · rw [sumW_unfav_groups priv unpriv _ hp', s2, s4, sumW_unit _ _ hw]
    field_simp
    linear_combination (d.countP isUnfav : ℚ) * hPU

/-- C3 witness: the hypotheses of `C3_reweigh_preserves_marginals` hold for
the concrete five-row dataset `d5` with the notebook's group predicates. -/
theorem C3_reweigh_preserves_marginals_w :
    (Partitioned privP unprivP d5 ∧ (∀ r ∈ d5, r.weight = 1) ∧
      d5.countP (pFav privP) ≠ 0 ∧ d5.countP (pUnfav privP) ≠ 0 ∧
      d5.countP (pFav unprivP) ≠ 0 ∧ d5.countP (pUnfav unprivP) ≠ 0) ∧
    (∃ d', fit_transform privP unprivP d5 = .ok d' ∧
      sumW (matchB privP) d' = sumW (matchB privP) d5 ∧
      sumW (matchB unprivP) d' = sumW (matchB unprivP) d5 ∧
      sumW isFav d' = sumW isFav d5 ∧
      sumW isUnfav d' = sumW isUnfav d5) :=
  ⟨⟨by decide, by decide, by decide, by decide, by decide, by decide⟩,
    C3_reweigh_preserves_marginals privP unprivP d5 (by decide) (by decide)
      (by decide) (by decide) (by decide) (by decide)⟩

/-- C4: whenever the reweighing transformer succeeds it returns a dataset of
the same length, in the same row order, in which every field other than the
instance weight (features, label, protected attributes) is identical to the
input's; being a pure function, it cannot mutate the original dataset. -/
theorem C4_transform_preserves_rows (priv unpriv : GroupPred) (d d' : Dataset)
    (h : fit_transform priv unpriv d = .ok d') :
    d'.length = d.length ∧ d'.map rowCore = d.map rowCore := by
  unfold fit_transform at h
  split at h
  · exact absurd h (by simp)
  · have hd : d' = d.map (applyW (rwWeights priv unpriv d) priv unpriv) := by
      injection h with h
      exact h.symm
    subst hd
    refine ⟨List.length_map _ _, ?_⟩
    rw [List.map_map]
    rfl

/-- C4 witness: a successful concrete run of the transformer on `d5`,
checked to preserve length and all weight-independent fields. -/
theorem C4_transform_preserves_rows_w :
    fit_transform privP unprivP d5 =
      .ok (d5.map (applyW (rwWeights privP unprivP d5) privP unprivP)) ∧
    ((d5.map (applyW (rwWeights privP unprivP d5) privP unprivP)).length =
        d5.length ∧
      (d5.map (applyW (rwWeights privP unprivP d5) privP unprivP)).map rowCore =
        d5.map rowCore) :=
  ⟨fit_transform_ok privP unprivP d5 (by decide) (by decide) (by decide)
      (by decide),
    C4_transform_preserves_rows privP unprivP d5 _
      (fit_transform_ok privP unprivP d5 (by decide) (by decide) (by decide)
        (by decide))⟩

/-- C10: the four weights computed by the reweighing transformer are a
function of the four (group, label) cell row counts alone — two unit-weight
datasets whose predicates partition their rows and whose four cell counts
agree produce identical weight 4-tuples, regardless of feature values, row
order or row identities. -/
theorem C10_weights_depend_only_on_cell_counts
    (p1 u1 p2 u2 : GroupPred) (d1 d2 : Dataset)
    (hp1 : Partitioned p1 u1 d1) (hp2 : Partitioned p2 u2 d2)
    (_hw1 : ∀ r ∈ d1, r.weight = 1) (_hw2 : ∀ r ∈ d2, r.weight = 1)
    (e1 : d1.countP (pFav p1) = d2.countP (pFav p2))
    (e2 : d1.countP (pUnfav p1) = d2.countP (pUnfav p2))
    (e3 : d1.countP (pFav u1) = d2.countP (pFav u2))
    (e4 : d1.countP (pUnfav u1) = d2.countP (pUnfav u2)) :
    rwWeights p1 u1 d1 = rwWeights p2 u2 d2 := by
  have hP : d1.countP (matchB p1) = d2.countP (matchB p2) := by
    rw [countP_group_cells, countP_group_cells, e1, e2]
  have hU : d1.countP (matchB u1) = d2.countP (matchB u2) := by
    rw [countP_group_cells, countP_group_cells, e3, e4]
  have hF : d1.countP isFav = d2.countP isFav := by
    rw [countP_fav_groups p1 u1 d1 hp1, countP_fav_groups p2 u2 d2 hp2, e1, e3]
  have hG : d1.countP isUnfav = d2.countP isUnfav := by
    rw [countP_unfav_groups p1 u1 d1 hp1, countP_unfav_groups p2 u2 d2 hp2,
      e2, e4]
  have hn : d1.length = d2.length := by
    rw [← countP_groups_total p1 u1 d1 hp1, ← countP_groups_total p2 u2 d2 hp2,
      hP, hU]
  unfold rwWeights
  rw [hP, hU, hF, hG, hn, e1, e2, e3, e4]

/-- C10 witness: `d5` and `d5b` differ in feature values and row order but
share the four cell counts, so they receive identical weight 4-tuples. -/
theorem C10_weights_depend_only_on_cell_counts_w :
    (Partitioned privP unprivP d5 ∧ Partitioned privP unprivP d5b ∧
      (∀ r ∈ d5, r.weight = 1) ∧ (∀ r ∈ d5b, r.weight = 1) ∧
      d5.countP (pFav privP) = d5b.countP (pFav privP) ∧
      d5.countP (pUnfav privP) = d5b.countP (pUnfav privP) ∧
      d5.countP (pFav unprivP) = d5b.countP (pFav unprivP) ∧
      d5.countP (pUnfav unprivP) = d5b.countP (pUnfav unprivP)) ∧
    rwWeights privP unprivP d5 = rwWeights privP unprivP d5b :=
  ⟨⟨by decide, by decide, by decide, by decide, by decide, by decide,
      by decide, by decide⟩,
    C10_weights_depend_only_on_cell_counts privP unprivP privP unprivP d5 d5b
      (by decide) (by decide) (by decide) (by decide) (by decide) (by decide)
      (by decide) (by decide)⟩

/-- C2: the reweighing transformer computes the weight of every cell as
`count(group) * count(label) / (total_count * count(group, label))`; in
particular, on the spec's 700-row scenario dataset with cell counts
400/100/120/80, the privileged-favorable weight is `(500 * 520) / (700 * 400)`. -/
theorem C2_weight_formula :
    (∀ (priv unpriv : GroupPred) (d : Dataset),
      rwWeights priv unpriv d =
        { w_p_fav := ((d.countP (matchB priv) : ℚ) * (d.countP isFav : ℚ)) /
            ((d.length : ℚ) * (d.countP (pFav priv) : ℚ)),
          w_p_unfav := ((d.countP (matchB priv) : ℚ) * (d.countP isUnfav : ℚ)) /
            ((d.length : ℚ) * (d.countP (pUnfav priv) : ℚ)),
          w_up_fav := ((d.countP (matchB unpriv) : ℚ) * (d.countP isFav : ℚ)) /
            ((d.length : ℚ) * (d.countP (pFav unpriv) : ℚ)),
          w_up_unfav := ((d.countP (matchB unpriv) : ℚ) * (d.countP isUnfav : ℚ)) /
            ((d.length : ℚ) * (d.countP (pUnfav unpriv) : ℚ)) }) ∧
    (rwWeights privP unprivP d700).w_p_fav = (500 * 520) / (700 * 400) := by
  constructor
  · intro priv unpriv d
    rfl
  · have key : ∀ q : Row → Bool, d700.countP q =
        (if q rowPF then 400 else 0) + ((if q rowPU then 100 else 0) +
          ((if q rowUF then 120 else 0) + (if q rowUU then 80 else 0))) := by
      intro q
      simp only [d700, List.countP_append, List.countP_replicate]
    have c1 : d700.countP (matchB privP) = 500 := by
      rw [key]
      decide
    have c2 : d700.countP isFav = 520 := by
      rw [key]
      decide
    have c3 : d700.countP (pFav privP) = 400 := by
      rw [key]
      decide
    have c4 : d700.length = 700 := by
      simp only [d700, List.length_append, List.length_replicate]
    show ((d700.countP (matchB privP) : ℚ) * (d700.countP isFav : ℚ)) /
        ((d700.length : ℚ) * (d700.countP (pFav privP) : ℚ)) =
        (500 * 520) / (700 * 400)
    rw [c1, c2, c3, c4]
    norm_num

/-- C5: every successful run of the splitter returns one more dataset than
there are cut points; the output row counts sum exactly to the input row
count, and the concatenated outputs are a permutation of the input rows
(each input row appears exactly once across the outputs). -/
theorem C5_split_partitions (d : Dataset) (cuts : List ℚ) (sh : Bool) (s : ℕ)
    (parts : List Dataset) (h : split d cuts sh s = .ok parts) :
    parts.length = cuts.length + 1 ∧
    (parts.map List.length).sum = d.length ∧
    parts.flatten.Perm d := by
  unfold split at h
  split at h
  case isTrue hv =>
    have hparts : parts =
        chunkRel (relSizes 0 (cuts.map (fun c => ⌊c * (d.length : ℚ)⌋₊)))
          (if sh then shuffleRows s d else d) := by
      injection h with h
      exact h.symm
    subst hparts
    have hperm : (if sh then shuffleRows s d else d).Perm d := by
      cases sh
      · simp
      · simpa using shuffleRows_perm s d
    refine ⟨?_, ?_, ?_⟩
    · rw [chunkRel_length, relSizes_length, List.length_map]
    · rw [← List.length_flatten, chunkRel_flatten]
      exact hperm.length_eq
    · rw [chunkRel_flatten]
      exact hperm
  case isFalse => exact absurd h (by simp)

/-- The concrete cut points used by the C5 witness. -/
def cuts2 : List ℚ := [1/2, 7/10]

/-- The splitter succeeds on `d5` with the cut points `cuts2`. -/
theorem split_d5_ok : split d5 cuts2 false 0 =
    .ok (chunkRel (relSizes 0 (cuts2.map (fun c => ⌊c * (d5.length : ℚ)⌋₊)))
      d5) := by
  have hv : validCuts cuts2 = true := by
    rw [validCuts_iff]
    constructor
    · rw [cuts2, List.chain'_cons]
      refine ⟨by norm_num, by simp⟩
    · intro c hc
      rw [cuts2] at hc
      simp only [List.mem_cons, List.not_mem_nil, or_false] at hc
      rcases hc with rfl | rfl
      · norm_num
      · norm_num
  unfold split
  rw [if_pos hv]
  simp

/-- C5 witness: a successful concrete split of `d5`, checked to produce
three parts whose sizes sum to five and whose concatenation permutes `d5`. -/
theorem C5_split_partitions_w :
    split d5 cuts2 false 0 =
      .ok (chunkRel (relSizes 0 (cuts2.map (fun c => ⌊c * (d5.length : ℚ)⌋₊)))
        d5) ∧
    ((chunkRel (relSizes 0 (cuts2.map (fun c => ⌊c * (d5.length : ℚ)⌋₊)))
        d5).length = cuts2.length + 1 ∧
      ((chunkRel (relSizes 0 (cuts2.map (fun c => ⌊c * (d5.length : ℚ)⌋₊)))
        d5).map List.length).sum = d5.length ∧
      (chunkRel (relSizes 0 (cuts2.map (fun c => ⌊c * (d5.length : ℚ)⌋₊)))
        d5).flatten.Perm d5) :=
  ⟨split_d5_ok, C5_split_partitions d5 cuts2 false 0 _ split_d5_ok⟩

/-- C6: the splitter fails with `InvalidSplitError` exactly when the cut
points are not strictly increasing or not all inside the open interval
(0, 1); in particular the cut-point sequence [0.5, 0.4] always fails. -/
theorem C6_split_invalid_iff :
    (∀ (d : Dataset) (cuts : List ℚ) (sh : Bool) (s : ℕ),
      split d cuts sh s = .error .invalidSplit ↔
        ¬(cuts.Chain' (· < ·) ∧ ∀ c ∈ cuts, 0 < c ∧ c < 1)) ∧
    (∀ (d : Dataset) (sh : Bool) (s : ℕ),
      split d [(0.5 : ℚ), 0.4] sh s = .error .invalidSplit) := by
  have key : ∀ (d : Dataset) (cuts : List ℚ) (sh : Bool) (s : ℕ),
      split d cuts sh s = .error .invalidSplit ↔ ¬(validCuts cuts = true) := by
    intro d cuts sh s
    unfold split
    split
    case isTrue hv => simp [hv]
    case isFalse hv => simp [hv]
  constructor
  · intro d cuts sh s
    rw [key, validCuts_iff]
  · intro d sh s
    rw [key, validCuts_iff]
    rintro ⟨hch, -⟩
    rw [List.chain'_cons] at hch
    have h1 := hch.1
    norm_num at h1

/-- C7: whenever either group predicate matches zero rows, both metrics fail
with `EmptyGroupError` instead of returning any numeric value. -/
theorem C7_empty_group_errors (d : Dataset) (unpriv priv : GroupPred)
    (h : d.countP (matchB priv) = 0 ∨ d.countP (matchB unpriv) = 0) :
    mean_difference d unpriv priv = .error .emptyGroup ∧
    disparate_impact d unpriv priv = .error .emptyGroup := by
  have h' : d.countP (matchB unpriv) = 0 ∨ d.countP (matchB priv) = 0 :=
    h.elim Or.inr Or.inl
  constructor
  · unfold mean_difference
    rw [if_pos h']
  · unfold disparate_impact
    rw [if_pos h']

/-- C7 witness: on a dataset with only privileged rows, the unprivileged
predicate matches zero rows and both metrics report the empty-group error. -/
theorem C7_empty_group_errors_w :
    (([rowPF] : Dataset).countP (matchB privP) = 0 ∨
      ([rowPF] : Dataset).countP (matchB unprivP) = 0) ∧
    (mean_difference [rowPF] unprivP privP = .error .emptyGroup ∧
      disparate_impact [rowPF] unprivP privP = .error .emptyGroup) :=
  ⟨Or.inr (by decide),
    C7_empty_group_errors [rowPF] unprivP privP (Or.inr (by decide))⟩

/-- C8: when both groups are non-empty but the weighted favorable rate of the
privileged group is 0, `disparate_impact` signals `UndefinedRatioError`
rather than returning a numeric value. -/
theorem C8_zero_rate_undefined_ratio (d : Dataset) (unpriv priv : GroupPred)
    (h1 : d.countP (matchB unpriv) ≠ 0) (h2 : d.countP (matchB priv) ≠ 0)
    (h3 : favRate d priv = 0) :
    disparate_impact d unpriv priv = .error .undefinedRatio := by
  unfold disparate_impact
  rw [if_neg (by push_neg; exact ⟨h1, h2⟩), if_pos h3]

/-- On the two-row dataset whose only privileged row is unfavorable, the
privileged favorable rate is 0. -/
theorem favRate_dZ : favRate [rowPU, rowUF] privP = 0 := by
  have h0 : sumW (pFav privP) [rowPU, rowUF] = 0 := by decide
  rw [favRate, h0, zero_div]

/-- C8 witness: both groups of `[rowPU, rowUF]` are non-empty, the privileged
favorable rate is 0, and `disparate_impact` reports the undefined-ratio
error. -/
theorem C8_zero_rate_undefined_ratio_w :
    (([rowPU, rowUF] : Dataset).countP (matchB unprivP) ≠ 0 ∧
      ([rowPU, rowUF] : Dataset).countP (matchB privP) ≠ 0 ∧
      favRate [rowPU, rowUF] privP = 0) ∧
    disparate_impact [rowPU, rowUF] unprivP privP = .error .undefinedRatio :=
  ⟨⟨by decide, by decide, favRate_dZ⟩,
    C8_zero_rate_undefined_ratio [rowPU, rowUF] unprivP privP (by decide)
      (by decide) favRate_dZ⟩

/-- C9: whenever `mean_difference` returns a value, swapping the privileged
and unprivileged roles returns exactly the negated value. -/
theorem C9_mean_difference_antisym (d : Dataset) (u p : GroupPred) (x : ℚ)
    (h : mean_difference d u p = .ok x) :
    mean_difference d p u = .ok (-x) := by
  unfold mean_difference at h ⊢
  by_cases hc : d.countP (matchB u) = 0 ∨ d.countP (matchB p) = 0
  · rw [if_pos hc] at h
    exact absurd h (by simp)
  · rw [if_neg hc] at h
    injection h with h
    rw [if_neg (fun hx => hc (hx.elim Or.inr Or.inl)), ← h, neg_sub]

/-- `mean_difference` on the two-row dataset `[rowPU, rowUF]` is 1. -/
theorem md_dZ : mean_difference [rowPU, rowUF] unprivP privP = .ok 1 := by
  have hu : favRate [rowPU, rowUF] unprivP = 1 := by
    have e1 : sumW (pFav unprivP) [rowPU, rowUF] = 1 := by
      rw [sumW_cons, sumW_cons]
      have f1 : pFav unprivP rowPU = false := by decide
      have f2 : pFav unprivP rowUF = true := by decide
      rw [f1, f2]
      show 0 + (rowUF.weight + sumW (pFav unprivP) []) = 1
      have : rowUF.weight = 1 := rfl
      rw [this]
      show 0 + (1 + 0) = 1
      norm_num
    have e2 : sumW (matchB unprivP) [rowPU, rowUF] = 1 := by
      rw [sumW_cons, sumW_cons]
      have f1 : matchB unprivP rowPU = false := by decide
      have f2 : matchB unprivP rowUF = true := by decide
      rw [f1, f2]
      show 0 + (rowUF.weight + sumW (matchB unprivP) []) = 1
      have : rowUF.weight = 1 := rfl
      rw [this]
      show 0 + (1 + 0) = 1
      norm_num
    rw [favRate, e1, e2]
    norm_num
  unfold mean_difference
  rw [if_neg (by decide), hu, favRate_dZ]
  norm_num

/-- C9 witness: on `[rowPU, rowUF]` the mean difference is 1 one way round
and -1 the other way round. -/
theorem C9_mean_difference_antisym_w :
    mean_difference [rowPU, rowUF] unprivP privP = .ok 1 ∧
    mean_difference [rowPU, rowUF] privP unprivP = .ok (-1) :=
  ⟨md_dZ, C9_mean_difference_antisym [rowPU, rowUF] unprivP privP 1 md_dZ⟩

end FairPipe
